import Mathlib

/-!
# Verification of the outrider pattern-matching and result-scoring core

This file gives a shallow embedding, in Lean, of the analysis core of the
`outrider` repository: the regular-pattern rule engine (`RuleEngine`), the
heuristic confidence-scored analyzer (`MLAnalyzer`), the offset-to-position
resolver (`getLineAndColumn`), the per-file analysis wrapper (`analyzeFile`
in the scan command) and the two summary/risk-score computations
(`OutputFormatter.generateSummary` and the scan command's `generateSummary`).

Texts are embedded as `List Char`, JavaScript regular expressions as an
explicit abstract syntax (`Rx`) evaluated by a backtracking matcher with the
leftmost / greedy / ordered-alternation priority of the JavaScript engine,
confidences as rationals, and the JavaScript `Math.round` as
floor-of-plus-one-half.  Fallible steps (file reading, parsing) are embedded
as `Except`.
-/

/-! ## Character classes and string helpers

`wordChar` is the JavaScript `\w` class, `spaceChar` the JavaScript `\s`
class (ASCII part plus the Unicode space characters the ECMAScript standard
lists).  `containsSub s sub` is `s.includes(sub)` and
`startsWithSub sub s` asks whether `sub` occurs at the head of `s`.
-/

def wordChar (c : Char) : Bool :=
  c.isAlpha || c.isDigit || c = '_'

def spaceChar (c : Char) : Bool :=
  c = ' ' || c = '\t' || c = '\n' || c = '\r' || c = '\x0b' || c = '\x0c' ||
  c = '\u00a0' || c = '\u1680' || (0x2000 ≤ c.val && c.val ≤ 0x200a) ||
  c = '\u2028' || c = '\u2029' || c = '\u202f' || c = '\u205f' ||
  c = '\u3000' || c = '\ufeff'

def startsWithSub : List Char → List Char → Bool
  | [], _ => true
  | _ :: _, [] => false
  | c :: cs, d :: ds => c = d && startsWithSub cs ds

def containsSub : List Char → List Char → Bool
  | _, [] => true
  | [], _ :: _ => false
  | c :: cs, d :: ds => startsWithSub (d :: ds) (c :: cs) || containsSub cs (d :: ds)

/-! ## A small JavaScript-regular-expression engine

`Rx` is the abstract syntax of the regular expressions the repository's two
engines use: character classes, sequencing, ordered alternation, greedy
Kleene star, negative lookahead `(?!...)`, the word boundary `\b`, and the
multiline anchors `^` / `$` (every anchored pattern in the repository
carries the `m` flag).  `reMatch` is a continuation-passing backtracking
matcher; it explores alternatives in exactly the priority order of the
JavaScript engine (first alternative first, greedy star longest-first, a
star iteration that consumes nothing ends the loop).  The `fuel` argument
only forces termination; it is chosen large enough that it is never
exhausted on the inputs evaluated in this file.
-/

inductive Rx where
  | eps
  | cls (p : Char → Bool)
  | seq (a b : Rx)
  | alt (a b : Rx)
  | star (a : Rx)
  | nlook (a : Rx)
  | wb
  | bol
  | eol

def wordAt (text : List Char) (i : Nat) : Bool :=
  match text[i]? with
  | some c => wordChar c
  | none => false

def reMatch : Nat → Rx → List Char → Nat → (Nat → Option Nat) → Option Nat
  | 0, _, _, _, _ => none
  | fuel + 1, re, text, pos, k =>
    match re with
    | .eps => k pos
    | .cls p =>
      match text[pos]? with
      | some c => if p c then k (pos + 1) else none
      | none => none
    | .seq a b => reMatch fuel a text pos (fun q => reMatch fuel b text q k)
    | .alt a b => reMatch fuel a text pos k <|> reMatch fuel b text pos k
    | .star a =>
      (reMatch fuel a text pos
        (fun q => if q ≤ pos then none else reMatch fuel (.star a) text q k)) <|> k pos
    | .nlook a => if (reMatch fuel a text pos some).isSome then none else k pos
    | .wb =>
      if (decide (0 < pos) && wordAt text (pos - 1)) != wordAt text pos then k pos else none
    | .bol => if pos = 0 || text[pos - 1]? = some '\n' then k pos else none
    | .eol => if pos = text.length || text[pos]? = some '\n' then k pos else none

def rxSize : Rx → Nat
  | .eps | .cls _ | .wb | .bol | .eol => 1
  | .seq a b | .alt a b => rxSize a + rxSize b + 1
  | .star a | .nlook a => rxSize a + 1

/-- Fuel that is far more than the recursion depth `reMatch` can reach on
`text`: the depth is bounded by the pattern size times the number of
positions, and every star iteration consumes at least one character. -/
def matchFuel (re : Rx) (text : List Char) : Nat :=
  (rxSize re + 2) * (text.length + 2) * (text.length + 2)

/-- One `pattern.exec(content)` step of the JavaScript engine: find the
leftmost position `≥ start` where the pattern matches, returning the match's
start and end offsets. -/
def execFromAux (re : Rx) (text : List Char) : Nat → Nat → Option (Nat × Nat)
  | 0, _ => none
  | f + 1, start =>
    match reMatch (matchFuel re text) re text start some with
    | some e => some (start, e)
    | none => execFromAux re text f (start + 1)

def execFrom (re : Rx) (text : List Char) (start : Nat) : Option (Nat × Nat) :=
  execFromAux re text (text.length + 1 - start) start

/-- All matches of a `/g` pattern in scan order, mirroring the
`while ((match = pattern.exec(content)) !== null)` loops of both engines:
after each match, scanning resumes at the match's end (`lastIndex`). -/
def findAllAux (re : Rx) (text : List Char) : Nat → Nat → List (Nat × Nat)
  | 0, _ => []
  | f + 1, lastIndex =>
    match execFrom re text lastIndex with
    | none => []
    | some (i, e) => (i, e) :: (if i < e then findAllAux re text f e else [])

def findAll (re : Rx) (text : List Char) : List (Nat × Nat) :=
  findAllAux re text (text.length + 1) 0

/-! Pattern-building helpers used to transcribe the repository's regex
literals. -/

def chrRx (c : Char) : Rx := .cls (fun x => x = c)

def catRx (rs : List Rx) : Rx := rs.foldr .seq .eps

def litRx (s : String) : Rx := catRx (s.toList.map chrRx)

def plusRx (r : Rx) : Rx := .seq r (.star r)

def optRx (r : Rx) : Rx := .alt r .eps

/-- `.` without the `s` flag (any character but a newline). -/
def dotRx : Rx := .cls (fun c => c ≠ '\n')

def wRx : Rx := .cls wordChar

def sRx : Rx := .cls spaceChar

def noneOf (cs : List Char) : Rx := .cls (fun c => !(cs.contains c))

/-! ## Position resolver

`getLineAndColumn` below transcribes the `getLineAndColumn` method that
appears, textually identical, in `RuleEngine` and in `MLAnalyzer`:

```
const beforeMatch = content.substring(0, index);
const lines = beforeMatch.split('\n');
const line = lines.length;
const column = lines[lines.length - 1].length + 1;
```

`splitOnNl` is JavaScript's `String.prototype.split('\n')` (it yields
`[""]` on the empty string, and a trailing empty segment when the text ends
with a newline). -/

def splitOnNl : List Char → List (List Char)
  | [] => [[]]
  | c :: cs =>
    if c = '\n' then [] :: splitOnNl cs
    else
      match splitOnNl cs with
      | [] => [[c]]
      | s :: ss => (c :: s) :: ss

def getLineAndColumn (content : List Char) (index : Nat) : Nat × Nat :=
  let beforeMatch := content.take index
  let lines := splitOnNl beforeMatch
  let line := lines.length
  let column := (lines.getLastD []).length + 1
  (line, column)

/-- `lines[n - 1]` for the 1-based line number `n`, with `content.split('\n')`
as `lines` — the line a finding's match starts on. -/
def lineAt (content : List Char) (ln : Nat) : List Char :=
  (splitOnNl content).getD (ln - 1) []

/-- Index of the last newline of a text, `none` when there is none.  This is
specification-side vocabulary (the claims' `lastNewlineIndexBefore`), not a
transcription of repository code. -/
def lastNlIdx : List Char → Option Nat
  | [] => none
  | c :: cs =>
    match lastNlIdx cs with
    | some i => some (i + 1)
    | none => if c = '\n' then some 0 else none

/-! ## Findings

A single record covers the three shapes of result objects the repository
builds (rule findings, heuristic/ml findings, and the synthetic
file-parsing-error finding); fields a shape does not carry are `none`.
Severities are the strings the source uses (`"error"`, `"warning"`, ...). -/

structure Finding where
  type : String
  severity : String
  file : String
  line : Nat
  column : Nat
  message : String
  rule : String
  code : Option (List Char) := none
  suggestion : Option String := none
  confidence : Option ℚ := none
  category : Option String := none
deriving DecidableEq, Repr

/-! ## The heuristic analyzer (`MLAnalyzer`, src/src/engine/mlAnalyzer.js)

`MLAnalyzer`'s constructor defaults are `enabled: true`,
`confidenceThreshold: 0.7`, `maxWarningsPerFile: 10`; `initializeModel`
always installs the heuristic model whose pattern table is
`getHeuristicPatterns`. -/

structure MLConfig where
  enabled : Bool
  confidenceThreshold : ℚ
  maxWarningsPerFile : Nat
deriving Repr

def defaultMLConfig : MLConfig :=
  { enabled := true, confidenceThreshold := 7/10, maxWarningsPerFile := 10 }

/-- A detector (one entry of a category's `patterns` array): a type name, a
pattern and a message.  The source stores the matched regex under the key
`pattern` and the detector name under `type`. -/
structure HeuristicDetector where
  type : String
  pattern : Rx
  message : String

structure HeuristicCategory where
  description : String
  severity : String
  confidence : ℚ
  patterns : List HeuristicDetector

/-- `MLAnalyzer.getHeuristicPatterns`, with each regex literal transcribed
into `Rx`.  Category order and detector order are the object-literal order
of the source. -/
def getHeuristicPatterns : List (String × HeuristicCategory) :=
  [("race-condition",
    { description := "Potential race condition detected"
      severity := "warning"
      confidence := 8/10
      patterns :=
        [{ type := "async-await-misuse"
           -- /async\s+function\s*\w*\s*\([^)]*\)\s*\{\s*[^}]*await\s+[^;]+;\s*[^}]*\}/gs
           pattern := catRx [litRx "async", plusRx sRx, litRx "function", .star sRx,
             .star wRx, .star sRx, chrRx '(', .star (noneOf [')']), chrRx ')', .star sRx,
             chrRx '\x7b', .star sRx, .star (noneOf ['\x7d']), litRx "await", plusRx sRx,
             plusRx (noneOf [';']), chrRx ';', .star sRx, .star (noneOf ['\x7d']), chrRx '\x7d']
           message := "Async function with await but no proper error handling" },
         { type := "promise-chain-missing-catch"
           -- /\.then\s*\([^)]*\)\s*(?!\.catch)/g
           pattern := catRx [chrRx '.', litRx "then", .star sRx, chrRx '(',
             .star (noneOf [')']), chrRx ')', .star sRx, .nlook (litRx ".catch")]
           message := "Promise chain missing error handling (.catch)" }] }),
   ("memory-leak",
    { description := "Potential memory leak detected"
      severity := "warning"
      confidence := 75/100
      patterns :=
        [{ type := "event-listener-no-removal"
           -- /addEventListener\s*\([^)]*\)\s*(?!.*removeEventListener)/g
           pattern := catRx [litRx "addEventListener", .star sRx, chrRx '(',
             .star (noneOf [')']), chrRx ')', .star sRx,
             .nlook (catRx [.star dotRx, litRx "removeEventListener"])]
           message := "Event listener added but no removal mechanism visible" },
         { type := "setinterval-no-clear"
           -- /setInterval\s*\([^)]*\)\s*(?!.*clearInterval)/g
           pattern := catRx [litRx "setInterval", .star sRx, chrRx '(',
             .star (noneOf [')']), chrRx ')', .star sRx,
             .nlook (catRx [.star dotRx, litRx "clearInterval"])]
           message := "setInterval called but no clearInterval visible" }] }),
   ("null-access",
    { description := "Potential null/undefined access"
      severity := "warning"
      confidence := 85/100
      patterns :=
        [{ type := "optional-chaining-missing"
           -- /(\w+\.\w+\.\w+)/g
           pattern := catRx [plusRx wRx, chrRx '.', plusRx wRx, chrRx '.', plusRx wRx]
           message := "Deep property access without null checks" },
         { type := "array-access-no-bounds-check"
           -- /(\w+)\[(\w+)\]/g
           pattern := catRx [plusRx wRx, chrRx '[', plusRx wRx, chrRx ']']
           message := "Array access without bounds checking" }] }),
   ("type-safety",
    { description := "Potential type safety issue"
      severity := "warning"
      confidence := 8/10
      patterns :=
        [{ type := "loose-equality"
           -- /==\s*[^=]/g
           pattern := catRx [litRx "==", .star sRx, noneOf ['=']]
           message := "Use strict equality (===) instead of loose equality (==)" },
         { type := "loose-inequality"
           -- /!=\s*[^=]/g
           pattern := catRx [litRx "!=", .star sRx, noneOf ['=']]
           message := "Use strict inequality (!==) instead of loose inequality (!=)" }] }),
   ("performance",
    { description := "Performance anti-pattern detected"
      severity := "warning"
      confidence := 7/10
      patterns :=
        [{ type := "nested-loops"
           -- /for\s*\([^)]*\)\s*\{[^}]*for\s*\([^)]*\)/g
           pattern := catRx [litRx "for", .star sRx, chrRx '(', .star (noneOf [')']),
             chrRx ')', .star sRx, chrRx '\x7b', .star (noneOf ['\x7d']), litRx "for",
             .star sRx, chrRx '(', .star (noneOf [')']), chrRx ')']
           message := "Nested loops detected - consider optimization" },
         { type := "string-concatenation-in-loop"
           -- /for\s*\([^)]*\)\s*\{[^}]*\+\s*=/g
           pattern := catRx [litRx "for", .star sRx, chrRx '(', .star (noneOf [')']),
             chrRx ')', .star sRx, chrRx '\x7b', .star (noneOf ['\x7d']), chrRx '+',
             .star sRx, chrRx '=']
           message := "String concatenation in loop - consider using array.join()" }] })]

def outriderMarker : List Char := "// outrider-disable".toList

def eslintMarker : List Char := "// eslint-disable".toList

/-- `MLAnalyzer.calculateConfidence(match, lineContent, lineNumber)`.  The
source starts from a fixed base of `0.5`, adds `0.2` when the matched text
is longer than 20 characters, subtracts `0.3` when the containing line has a
disable comment, adds `0.1` when the matched text contains `setInterval` or
`addEventListener`, and clamps with `Math.max(0, Math.min(1, confidence))`.
The `lineNumber` parameter is unused, as in the source. -/
def calculateConfidence (matchText : List Char) (lineContent : List Char)
    (lineNumber : Nat) : ℚ :=
  let confidence : ℚ := 1/2
  let confidence :=
    if 20 < matchText.length then confidence + 2/10 else confidence
  let confidence :=
    if containsSub lineContent outriderMarker || containsSub lineContent eslintMarker then
      confidence - 3/10
    else confidence
  let confidence :=
    if containsSub matchText ("setInterval".toList) ||
        containsSub matchText ("addEventListener".toList) then
      confidence + 1/10
    else confidence
  let _ := lineNumber
  max 0 (min 1 confidence)

/-- The record `findPatternMatches` pushes for each regex match (the source
keys the matched substring as `match`; that is a Lean keyword, so the field
is called `matchText`). -/
structure RawMatch where
  line : Nat
  column : Nat
  confidence : ℚ
  matchText : List Char
deriving DecidableEq, Repr

def mkRawMatch (content : List Char) (lines : List (List Char))
    (ie : Nat × Nat) : RawMatch :=
  let lc := getLineAndColumn content ie.1
  let matchText := (content.drop ie.1).take (ie.2 - ie.1)
  { line := lc.1, column := lc.2
    confidence := calculateConfidence matchText (lines.getD (lc.1 - 1) []) lc.1
    matchText := matchText }

/-- `MLAnalyzer.findPatternMatches(pattern, content, lines)`. -/
def findPatternMatches (pattern : Rx) (content : List Char)
    (lines : List (List Char)) : List RawMatch :=
  (findAll pattern content).map (mkRawMatch content lines)

/-- `MLAnalyzer.getMLSuggestion(category, type)`. -/
def getMLSuggestion (category : String) (type : String) : String :=
  let entry : Option String :=
    match category, type with
    | "race-condition", "async-await-misuse" => some "Wrap await calls in try-catch blocks"
    | "race-condition", "promise-chain-missing-catch" =>
      some "Add .catch() to handle promise rejections"
    | "memory-leak", "event-listener-no-removal" =>
      some "Store reference to listener and remove it when no longer needed"
    | "memory-leak", "setinterval-no-clear" =>
      some "Store interval ID and call clearInterval when appropriate"
    | "null-access", "optional-chaining-missing" =>
      some "Use optional chaining (?.) or add null checks"
    | "null-access", "array-access-no-bounds-check" =>
      some "Check array bounds before accessing elements"
    | "type-safety", "loose-equality" =>
      some "Replace == with === for strict equality comparison"
    | "type-safety", "loose-inequality" =>
      some "Replace != with !== for strict inequality comparison"
    | "performance", "nested-loops" =>
      some "Consider using more efficient algorithms or data structures"
    | "performance", "string-concatenation-in-loop" =>
      some "Use array.push() and array.join() instead of string concatenation"
    | _, _ => none
  entry.getD "Review and optimize according to best practices"

/-- The finding `analyzeWithHeuristics` pushes for a match that passed the
confidence threshold. -/
def mkMlFinding (category : String) (categoryConfig : HeuristicCategory)
    (det : HeuristicDetector) (filePath : String) (m : RawMatch) : Finding :=
  { type := "ml", severity := categoryConfig.severity, file := filePath,
    line := m.line, column := m.column, message := det.message,
    rule := category ++ "-" ++ det.type, confidence := some m.confidence,
    category := some category,
    suggestion := some (getMLSuggestion category det.type) }

/-- `MLAnalyzer.analyzeWithHeuristics(content, filePath)`, parameterised by
the model's pattern table (`this.model.patterns`). -/
def analyzeWithHeuristicsT (table : List (String × HeuristicCategory))
    (cfg : MLConfig) (content : List Char) (filePath : String) : List Finding :=
  let lines := splitOnNl content
  table.flatMap fun cat =>
    cat.2.patterns.flatMap fun det =>
      ((findPatternMatches det.pattern content lines).filter
          (fun m => cfg.confidenceThreshold ≤ m.confidence)).map
        (mkMlFinding cat.1 cat.2 det filePath)

def analyzeWithHeuristics (cfg : MLConfig) (content : List Char)
    (filePath : String) : List Finding :=
  analyzeWithHeuristicsT getHeuristicPatterns cfg content filePath

/-- `MLAnalyzer.analyze(ast, content, filePath)` for the heuristic model the
analyzer always installs: returns `[]` when disabled, otherwise the
heuristic findings truncated to `maxWarningsPerFile` by
`results.slice(0, ...)`. -/
def mlAnalyze (cfg : MLConfig) (content : List Char) (filePath : String) :
    List Finding :=
  if !cfg.enabled then []
  else (analyzeWithHeuristics cfg content filePath).take cfg.maxWarningsPerFile

/-! ## The rule engine (`RuleEngine`)

Rules are embedded as an association list from rule name to rule record, in
object-literal order — JavaScript objects with string keys preserve
insertion order, which `Object.keys` and object spread follow.  A missing
`enabled` or `exclude` property is `none`. -/

structure Rule where
  name : String
  enabled : Option Bool := none
  severity : String
  description : String := ""
  pattern : Option Rx := none
  exclude : Option (List Rx) := none

def lookupRule (rules : List (String × Rule)) (ruleName : String) : Option Rule :=
  (rules.find? (fun p => p.1 = ruleName)).map (fun p => p.2)

/-- The `defaultRules` object literal of `RuleEngine.initializeRules`, each
regex literal transcribed into `Rx`. -/
def defaultRules : List (String × Rule) :=
  [("no-unused-variables",
    { name := "no-unused-variables", enabled := some false, severity := "warning"
      description := "Variables that are declared but never used"
      -- /const\s+(\w+)\s*=\s*[^;]+;?(?:\s*\/\/.*)?$/gm
      pattern := some (catRx [litRx "const", plusRx sRx, plusRx wRx, .star sRx,
        chrRx '=', .star sRx, plusRx (noneOf [';']), optRx (chrRx ';'),
        optRx (catRx [.star sRx, litRx "//", .star dotRx]), .eol]) }),
   ("no-console-log",
    { name := "no-console-log", enabled := some true, severity := "warning"
      description := "Console.log statements should be removed in production"
      -- /console\.(log|warn|error|info)\(/g
      pattern := some (catRx [litRx "console.",
        .alt (litRx "log") (.alt (litRx "warn") (.alt (litRx "error") (litRx "info"))),
        chrRx '(']) }),
   ("no-debugger",
    { name := "no-debugger", enabled := some true, severity := "error"
      description := "Debugger statements should not be in production code"
      -- /debugger\s*;?/g
      pattern := some (catRx [litRx "debugger", .star sRx, optRx (chrRx ';')]) }),
   ("no-eval",
    { name := "no-eval", enabled := some true, severity := "error"
      description := "Eval can be dangerous and should be avoided"
      -- /eval\s*\(/g
      pattern := some (catRx [litRx "eval", .star sRx, chrRx '(']) }),
   ("no-var",
    { name := "no-var", enabled := some true, severity := "warning"
      description := "Use const or let instead of var"
      -- /\bvar\s+\w+/g
      pattern := some (catRx [.wb, litRx "var", plusRx sRx, plusRx wRx]) }),
   ("prefer-const",
    { name := "prefer-const", enabled := some true, severity := "warning"
      description := "Use const for variables that are never reassigned"
      -- /let\s+(\w+)\s*=\s*([^;]+);(?:\s*\/\/.*)?$/gm
      pattern := some (catRx [litRx "let", plusRx sRx, plusRx wRx, .star sRx,
        chrRx '=', .star sRx, plusRx (noneOf [';']), chrRx ';',
        optRx (catRx [.star sRx, litRx "//", .star dotRx]), .eol]) }),
   ("no-empty-blocks",
    { name := "no-empty-blocks", enabled := some true, severity := "warning"
      description := "Empty blocks should be avoided"
      -- /\{\s*\}/g
      pattern := some (catRx [chrRx '\x7b', .star sRx, chrRx '\x7d']) }),
   ("no-multiple-empty-lines",
    { name := "no-multiple-empty-lines", enabled := some true, severity := "warning"
      description := "Multiple consecutive empty lines should be avoided"
      -- /\n\s*\n\s*\n/g
      pattern := some (catRx [chrRx '\n', .star sRx, chrRx '\n', .star sRx, chrRx '\n']) }),
   ("no-trailing-spaces",
    { name := "no-trailing-spaces", enabled := some true, severity := "warning"
      description := "Trailing spaces should be removed"
      -- /[ \t]+$/gm
      pattern := some (catRx [plusRx (.cls (fun c => c = ' ' || c = '\t')), .eol]) }),
   ("no-mixed-spaces-and-tabs",
    { name := "no-mixed-spaces-and-tabs", enabled := some true, severity := "warning"
      description := "Mixed spaces and tabs should be avoided"
      -- /^[ \t]*\t[ \t]*[^ \t]/gm
      pattern := some (catRx [.bol, .star (.cls (fun c => c = ' ' || c = '\t')),
        chrRx '\t', .star (.cls (fun c => c = ' ' || c = '\t')),
        .cls (fun c => !(c = ' ' || c = '\t'))]) })]

/-- `RuleEngine.initializeRules`: `{ ...defaultRules, ...customRules }` —
keys of the defaults keep their position (custom values win), new custom
keys are appended in the custom object's order. -/
def mergeRules (defaults custom : List (String × Rule)) : List (String × Rule) :=
  defaults.map (fun p => (p.1, (lookupRule custom p.1).getD p.2)) ++
    custom.filter (fun p => (lookupRule defaults p.1).isNone)

/-- `RuleEngine.getEnabledRules()`:
`Object.keys(this.rules).filter(n => this.rules[n].enabled !== false)`. -/
def getEnabledRules (rules : List (String × Rule)) : List String :=
  (rules.map (fun p => p.1)).filter (fun ruleName =>
    match lookupRule rules ruleName with
    | some rule => !(rule.enabled == some false)
    | none => false)

/-- `RuleEngine.shouldSkipRule(rule, lineContent, lineNumber)`. -/
def shouldSkipRule (rule : Rule) (lineContent : List Char) (lineNumber : Nat) : Bool :=
  let _ := lineNumber
  if containsSub lineContent eslintMarker || containsSub lineContent outriderMarker then
    true
  else
    match rule.exclude with
    | some ps => ps.any (fun pat => (execFrom pat lineContent 0).isSome)
    | none => false

/-- `RuleEngine.getSuggestion(ruleName, code)`. -/
def getSuggestion (ruleName : String) : String :=
  let entry : Option String :=
    match ruleName with
    | "no-console-log" => some "Remove console.log statement or use a proper logging library"
    | "no-debugger" => some "Remove debugger statement"
    | "no-eval" => some "Use alternative approaches like JSON.parse or Function constructor"
    | "no-var" => some "Replace with const or let"
    | "prefer-const" => some "Change let to const if variable is never reassigned"
    | "no-empty-blocks" => some "Add content to block or remove if unnecessary"
    | "no-multiple-empty-lines" => some "Reduce to maximum of one empty line"
    | "no-trailing-spaces" => some "Remove trailing spaces"
    | "no-mixed-spaces-and-tabs" => some "Use consistent indentation (spaces or tabs)"
    | _ => none
  entry.getD "Review and fix according to rule description"

/-- JavaScript `String.prototype.trim` on the matched text (`match[0].trim()`). -/
def trimText (l : List Char) : List Char :=
  ((l.dropWhile spaceChar).reverse.dropWhile spaceChar).reverse

/-- The violation record `applyRule` pushes. -/
def mkRuleFinding (rule : Rule) (ruleName : String) (filePath : String)
    (content : List Char) (ie : Nat × Nat) : Finding :=
  let lc := getLineAndColumn content ie.1
  { type := "rule", severity := rule.severity, file := filePath,
    line := lc.1, column := lc.2, message := rule.description, rule := ruleName,
    code := some (trimText ((content.drop ie.1).take (ie.2 - ie.1))),
    suggestion := some (getSuggestion ruleName) }

/-- `RuleEngine.applyRule(rule, ruleName, content, filePath)`: rules without
a pattern contribute nothing; every global match is resolved to a position
and skipped when `shouldSkipRule` holds on its line. -/
def applyRule (rule : Rule) (ruleName : String) (content : List Char)
    (filePath : String) : List Finding :=
  match rule.pattern with
  | none => []
  | some pat =>
    (findAll pat content).filterMap (fun ie =>
      let lc := getLineAndColumn content ie.1
      if shouldSkipRule rule (lineAt content lc.1) lc.1 then none
      else some (mkRuleFinding rule ruleName filePath content ie))

/-- `RuleEngine.analyze(ast, content, filePath)` over a rule set: iterate
the enabled rule names and concatenate each rule's violations. -/
def ruleAnalyze (rules : List (String × Rule)) (content : List Char)
    (filePath : String) : List Finding :=
  (getEnabledRules rules).flatMap fun ruleName =>
    match lookupRule rules ruleName with
    | some rule => applyRule rule ruleName content filePath
    | none => []

/-- A `RuleEngine` constructed from custom configuration, analyzing a text:
`new RuleEngine(customRules).analyze(ast, content, filePath)`. -/
def ruleEngineAnalyze (customRules : List (String × Rule)) (content : List Char)
    (filePath : String) : List Finding :=
  ruleAnalyze (mergeRules defaultRules customRules) content filePath

/-- The argument object of `RuleEngine.addRule`: any subset of a rule's
properties may be present (`none` = the key is absent). -/
structure RuleSpec where
  name : Option String := none
  enabled : Option Bool := none
  severity : Option String := none
  description : Option String := none
  pattern : Option Rx := none
  exclude : Option (List Rx) := none

/-- `RuleEngine.addRule(ruleName, ruleConfig)`:
`this.rules[ruleName] = { name: ruleName, enabled: true, severity: 'warning', ...ruleConfig }`
— the spread lets `ruleConfig`'s own properties override the defaults.
Assigning to an existing key keeps its position; a new key is appended. -/
def addRule (rules : List (String × Rule)) (ruleName : String)
    (ruleConfig : RuleSpec) : List (String × Rule) :=
  let newRule : Rule :=
    { name := ruleConfig.name.getD ruleName
      enabled := some (ruleConfig.enabled.getD true)
      severity := ruleConfig.severity.getD "warning"
      description := ruleConfig.description.getD ""
      pattern := ruleConfig.pattern
      exclude := ruleConfig.exclude }
  if (lookupRule rules ruleName).isSome then
    rules.map (fun p => if p.1 = ruleName then (p.1, newRule) else p)
  else
    rules ++ [(ruleName, newRule)]

/-! ## Summaries and the risk score

`mathRound` is JavaScript's `Math.round` (round half toward positive
infinity): `⌊q + 1/2⌋`. -/

def mathRound (q : ℚ) : ℤ := (q + 1/2).floor

/-- The summary of `OutputFormatter.generateSummary` (src/unnamed/part_000).
The `byType` / `bySeverity` / `byCategory` tallies are omitted here — no
claim mentions them; `errors`, `warnings` and `riskScore` are transcribed
exactly. -/
structure FormatterSummary where
  total : Nat
  errors : Nat
  warnings : Nat
  riskScore : ℤ
deriving DecidableEq, Repr

def formatterGenerateSummary (results : List Finding) : FormatterSummary :=
  let errors := results.countP (fun r => r.severity == "error")
  let warnings := results.countP (fun r => r.severity == "warning")
  let riskScore : ℤ :=
    if 0 < results.length then
      min 100 (mathRound (((errors * 3 + warnings * 1 : Nat) : ℚ) / results.length * 20))
    else 0
  { total := results.length, errors := errors, warnings := warnings,
    riskScore := riskScore }

/-- The summary of the scan command's `generateSummary`
(src/src/utils/codeFixer.js:391-406).  Its risk score divides the weighted
score by `totalIssues = warnings + errors`, not by `results.length`; when
`results` is non-empty but holds neither warnings nor errors the JavaScript
computation is `0/0 = NaN`, which is embedded as `none`. -/
structure ScanSummary where
  warnings : Nat
  errors : Nat
  riskScore : Option ℤ
deriving DecidableEq, Repr

def scanGenerateSummary (results : List Finding) : ScanSummary :=
  let warnings := (results.filter (fun r => r.severity == "warning")).length
  let errors := (results.filter (fun r => r.severity == "error")).length
  let riskScore : Option ℤ :=
    if 0 < results.length then
      let totalIssues := warnings + errors
      if totalIssues = 0 then none
      else some (min 100 (mathRound (((errors * 3 + warnings * 1 : Nat) : ℚ) / totalIssues * 20)))
    else some 0
  { warnings := warnings, errors := errors, riskScore := riskScore }

/-- Severity weights as the specification states them: `error` weighs 3,
`warning` weighs 1, anything else 0. -/
def sevWeight (severity : String) : Nat :=
  if severity == "error" then 3 else if severity == "warning" then 1 else 0

/-- The risk-score formula exactly as the specification writes it:
`min(100, round((Σ weights / totalFindings) × 20))`, 0 on an empty list.
This is specification-side vocabulary used to compare the two
implementations against the claim. -/
def specRiskScore (results : List Finding) : ℤ :=
  if results.length = 0 then 0
  else
    min 100 (mathRound ((((results.map (fun r => sevWeight r.severity)).sum : Nat) : ℚ) /
      results.length * 20))

/-! ## Per-file analysis and the scan batch (`analyzeFile`, codeFixer.js)

Reading and parsing are embedded as `Except`-valued steps; the rule engine
step is also `Except`-valued (a custom rule whose `pattern` is not callable
as a regex would make `ruleEngine.analyze` throw).  `MLAnalyzer.analyze`
wraps its heuristic pass in its own `try`/`catch` and cannot reject, so the
ML step is a total function.  The `catch` of `analyzeFile` pushes one
synthetic finding onto whatever was already accumulated. -/

def parseErrorFinding (filePath : String) (errMessage : String) : Finding :=
  { type := "error", severity := "error", file := filePath, line := 1, column := 1,
    message := "Failed to analyze file: " ++ errMessage, rule := "file-parsing-error" }

def analyzeFile {α : Type} (filePath : String)
    (readF : Except String (List Char))
    (parseF : List Char → Except String α)
    (ruleF : α → List Char → String → Except String (List Finding))
    (mlF : α → List Char → String → List Finding) : List Finding :=
  match readF with
  | .error e => [parseErrorFinding filePath e]
  | .ok content =>
    match parseF content with
    | .error e => [parseErrorFinding filePath e]
    | .ok ast =>
      match ruleF ast content filePath with
      | .error e => [parseErrorFinding filePath e]
      | .ok ruleResults => ruleResults ++ mlF ast content filePath

/-- The first error of a file's pipeline, if any (the exception the
`try` block of `analyzeFile` would raise). -/
def pipelineError {α : Type} (filePath : String)
    (readF : Except String (List Char))
    (parseF : List Char → Except String α)
    (ruleF : α → List Char → String → Except String (List Finding)) : Option String :=
  match readF with
  | .error e => some e
  | .ok content =>
    match parseF content with
    | .error e => some e
    | .ok ast =>
      match ruleF ast content filePath with
      | .error e => some e
      | .ok _ => none

/-- The scan command's file loop: analyze each discovered file with the
shared engines and concatenate the per-file results. -/
def scanBatch {α : Type} (files : List String)
    (readFs : String → Except String (List Char))
    (parseF : List Char → Except String α)
    (ruleF : α → List Char → String → Except String (List Finding))
    (mlF : α → List Char → String → List Finding) : List Finding :=
  files.flatMap fun file => analyzeFile file (readFs file) parseF ruleF mlF

/-! ## Specification-side vocabulary for the claims -/

/-- The shared suppression predicate of §4.4 of the specification: a line is
suppressed when it carries one of the two recognized inline disable
markers. -/
def lineSuppressed (lineContent : List Char) : Bool :=
  containsSub lineContent eslintMarker || containsSub lineContent outriderMarker

/-- Replace an `enabled` attribute that is not literally `false` by an
explicit `true` (the claims' "scans with that rule exactly as with an
explicitly enabled one"). -/
def forceEnabled (r : Rule) : Rule :=
  if r.enabled = some false then r else { r with enabled := some true }

def enableAll (rules : List (String × Rule)) : List (String × Rule) :=
  rules.map (fun p => (p.1, forceEnabled p.2))

/-- The total number of raw pattern matches of all heuristic detectors on a
text — the matches `findPatternMatches` produces before the confidence
threshold is applied. -/
def totalRawMatches (content : List Char) : Nat :=
  ((getHeuristicPatterns.flatMap (fun cat => cat.2.patterns)).map
    (fun det => (findPatternMatches det.pattern content (splitOnNl content)).length)).sum

/-- A minimal finding of a given severity, for concrete instances. -/
def findingOfSeverity (severity : String) : Finding :=
  { type := "rule", severity := severity, file := "f", line := 1, column := 1,
    message := "m", rule := "r" }

/-- The single finding `MLAnalyzer.analyze` emits on the text `a.b.c` when
the confidence threshold is `0.5`. -/
def exampleMlFinding : Finding :=
  { type := "ml", severity := "warning", file := "f", line := 1, column := 1,
    message := "Deep property access without null checks",
    rule := "null-access-optional-chaining-missing",
    confidence := some (1/2), category := some "null-access",
    suggestion := some "Use optional chaining (?.) or add null checks" }

section
attribute [local semireducible] Rat.mul Rat.inv Rat.add Rat.sub

/-! ## Lemmas -/

/-- The spec's severity-weight sum agrees with the error/warning counts the
implementations tally. -/
lemma sum_sevWeight (results : List Finding) :
    (results.map (fun r => sevWeight r.severity)).sum =
      results.countP (fun r => r.severity == "error") * 3 +
        results.countP (fun r => r.severity == "warning") * 1 := by
  induction results with
  | nil => simp
  | cons f fs ih =>
    simp only [List.map_cons, List.sum_cons, List.countP_cons, ih]
    by_cases he : f.severity = "error"
    · simp [sevWeight, he]
      omega
    · by_cases hw : f.severity = "warning" <;> simp [sevWeight, he, hw] <;> omega

lemma countP_sev_total (results : List Finding)
    (hall : ∀ f ∈ results, f.severity = "error" ∨ f.severity = "warning") :
    results.countP (fun r => r.severity == "warning") +
      results.countP (fun r => r.severity == "error") = results.length := by
  induction results with
  | nil => simp
  | cons f fs ih =>
    have hf := hall f (by simp)
    have hrest := ih (fun g hg => hall g (List.mem_cons_of_mem _ hg))
    have hne : ¬("error" = "warning") := by decide
    rcases hf with h | h <;>
      · simp [List.countP_cons, h, ← hrest, hne]
        omega

/-! ## Claim theorems -/

/-- Claim C1, counterexample: on the list `[error-finding, info-finding]`
the scan command's `generateSummary` computes a risk score of 60 (it divides
the weighted score by `warnings + errors = 1`), while the claimed formula
`min(100, round((Σweights / totalFindings) × 20))` gives 30. -/
theorem c1_counterexample :
    (scanGenerateSummary [findingOfSeverity "error", findingOfSeverity "info"]).riskScore =
      some 60 ∧
    specRiskScore [findingOfSeverity "error", findingOfSeverity "info"] = 30 ∧
    ¬((scanGenerateSummary [findingOfSeverity "error", findingOfSeverity "info"]).riskScore =
        some (specRiskScore [findingOfSeverity "error", findingOfSeverity "info"])) := by
  refine ⟨by decide, by decide, by decide⟩

/-- Claim C1, amended: `OutputFormatter.generateSummary` computes exactly
`min(100, round((Σweights / totalFindings) × 20))` (0 on an empty list) for
every finding list; the scan command's `generateSummary` computes that
formula only on lists in which every finding's severity is `error` or
`warning` — in general it divides by `warnings + errors` instead of the
total number of findings. -/
theorem c1_risk_score (results : List Finding) :
    (formatterGenerateSummary results).riskScore = specRiskScore results ∧
    ((∀ f ∈ results, f.severity = "error" ∨ f.severity = "warning") →
      (scanGenerateSummary results).riskScore = some (specRiskScore results)) := by
  constructor
  · simp only [formatterGenerateSummary, specRiskScore, sum_sevWeight]
    rcases Nat.eq_zero_or_pos results.length with h | h
    · simp [h]
    · rw [if_pos h, if_neg (by omega)]
  · intro hall
    have htot := countP_sev_total results hall
    simp only [scanGenerateSummary, specRiskScore, sum_sevWeight]
    rcases Nat.eq_zero_or_pos results.length with h | h
    · rw [if_neg (by omega), if_pos h]
    · rw [if_pos h, if_neg h.ne']
      simp only [← List.countP_eq_length_filter]
      rw [if_neg (by omega), htot]

/-- Claim C1, witness: concrete instances of the amended theorem — one
`error` finding scores 60 in both implementations, ten `warning` findings
score 20, the empty list scores 0. -/
theorem c1_witness :
    specRiskScore [findingOfSeverity "error"] = 60 ∧
    (scanGenerateSummary [findingOfSeverity "error"]).riskScore =
      some (specRiskScore [findingOfSeverity "error"]) ∧
    specRiskScore (List.replicate 10 (findingOfSeverity "warning")) = 20 ∧
    (formatterGenerateSummary (List.replicate 10 (findingOfSeverity "warning"))).riskScore =
      specRiskScore (List.replicate 10 (findingOfSeverity "warning")) ∧
    (formatterGenerateSummary []).riskScore = 0 :=
  ⟨by decide, (c1_risk_score [findingOfSeverity "error"]).2 (by decide), by decide,
    (c1_risk_score (List.replicate 10 (findingOfSeverity "warning"))).1, by decide⟩

lemma splitOnNl_ne_nil (l : List Char) : splitOnNl l ≠ [] := by
  induction l with
  | nil => simp [splitOnNl]
  | cons c cs ih =>
    by_cases hc : c = '\n'
    · simp [splitOnNl, hc]
    · simp only [splitOnNl, if_neg hc]
      cases h : splitOnNl cs with
      | nil => exact absurd h ih
      | cons s ss => simp

lemma splitOnNl_length (l : List Char) : (splitOnNl l).length = l.count '\n' + 1 := by
  induction l with
  | nil => simp [splitOnNl]
  | cons c cs ih =>
    by_cases hc : c = '\n'
    · simp [splitOnNl, hc, List.count_cons, ih]
    · simp only [splitOnNl, if_neg hc]
      cases h : splitOnNl cs with
      | nil => exact absurd h (splitOnNl_ne_nil cs)
      | cons s ss =>
        rw [h] at ih
        simp only [List.count_cons, List.length_cons] at ih ⊢
        simp [hc, ← ih]

lemma lastNlIdx_none_iff (l : List Char) : lastNlIdx l = none ↔ l.count '\n' = 0 := by
  induction l with
  | nil => simp [lastNlIdx]
  | cons c cs ih =>
    simp only [lastNlIdx]
    cases h : lastNlIdx cs with
    | some i =>
      have hcs : cs.count '\n' ≠ 0 := fun h0 => by rw [ih.2 h0] at h; cases h
      constructor
      · intro habs; cases habs
      · intro habs
        exfalso
        apply hcs
        rw [List.count_cons] at habs
        exact Nat.eq_zero_of_add_eq_zero_right habs
    | none =>
      have hcs : cs.count '\n' = 0 := ih.1 h
      by_cases hc : c = '\n' <;> simp [hc, hcs, List.count_cons]

lemma lastNlIdx_lt (l : List Char) (i : Nat) (h : lastNlIdx l = some i) : i < l.length := by
  induction l generalizing i with
  | nil => cases h
  | cons c cs ih =>
    simp only [lastNlIdx] at h
    cases h' : lastNlIdx cs with
    | some j =>
      rw [h'] at h
      injection h with h
      subst h
      exact Nat.succ_lt_succ (ih j h')
    | none =>
      rw [h'] at h
      by_cases hc : c = '\n'
      · rw [if_pos hc] at h
        injection h with h
        subst h
        exact Nat.succ_pos _
      · rw [if_neg hc] at h
        cases h

lemma splitOnNl_getLastD_none :
    ∀ l : List Char, lastNlIdx l = none →
      ((splitOnNl l).getLastD []).length = l.length := by
  intro l
  induction l with
  | nil => intro _; simp [splitOnNl]
  | cons c cs ih =>
    intro h
    simp only [lastNlIdx] at h
    cases h' : lastNlIdx cs with
    | some j => rw [h'] at h; cases h
    | none =>
      rw [h'] at h
      by_cases hc : c = '\n'
      · rw [if_pos hc] at h; cases h
      · have hcs := ih h'
        have hc0 : cs.count '\n' = 0 := (lastNlIdx_none_iff cs).1 h'
        have hlen := splitOnNl_length cs
        cases hs : splitOnNl cs with
        | nil => exact absurd hs (splitOnNl_ne_nil cs)
        | cons s ss =>
          rw [hs] at hlen
          rw [hc0] at hlen
          have hss : ss = [] := by
            simp only [List.length_cons] at hlen
            exact List.length_eq_zero.1 (by omega)
          subst hss
          rw [hs] at hcs
          simp only [List.getLastD_cons, List.getLastD_nil] at hcs
          simp only [splitOnNl, if_neg hc, hs, List.getLastD_cons, List.getLastD_nil,
            List.length_cons]
          omega

lemma splitOnNl_getLastD_some :
    ∀ (l : List Char) (i : Nat), lastNlIdx l = some i →
      ((splitOnNl l).getLastD []).length = l.length - (i + 1) := by
  intro l
  induction l with
  | nil => intro i h; cases h
  | cons c cs ih =>
    intro i h
    simp only [lastNlIdx] at h
    by_cases hc : c = '\n'
    · simp only [splitOnNl, if_pos hc, List.getLastD_cons]
      cases h' : lastNlIdx cs with
      | some j =>
        rw [h'] at h
        injection h with h
        subst h
        rw [ih j h']
        simp only [List.length_cons]
        omega
      | none =>
        rw [h', if_pos hc] at h
        injection h with h
        subst h
        rw [splitOnNl_getLastD_none cs h']
        simp
    · cases h' : lastNlIdx cs with
      | none => rw [h', if_neg hc] at h; cases h
      | some j =>
        rw [h'] at h
        injection h with h
        subst h
        have hcount : cs.count '\n' ≠ 0 := by
          intro h0
          rw [(lastNlIdx_none_iff cs).2 h0] at h'
          cases h'
        have hlen := splitOnNl_length cs
        cases hs : splitOnNl cs with
        | nil => exact absurd hs (splitOnNl_ne_nil cs)
        | cons s ss =>
          rw [hs] at hlen
          simp only [List.length_cons] at hlen
          cases ss with
          | nil =>
            exfalso
            simp only [List.length_nil] at hlen
            omega
          | cons s2 ss2 =>
            have ihv := ih j h'
            rw [hs] at ihv
            simp only [List.getLastD_cons] at ihv
            simp only [splitOnNl, if_neg hc, hs, List.getLastD_cons, List.length_cons]
            rw [ihv]
            omega

/-- Claim C2: the position resolver (`getLineAndColumn`, textually identical
in `RuleEngine` and `MLAnalyzer`) returns a line that is one plus the number
of newlines strictly before the offset, and a column equal to the offset
minus the index of the last newline before it (offset plus one when there is
none); both are at least 1, for any offset within the text, including texts
without a trailing newline. -/
theorem c2_position_resolver (t : List Char) (o : Nat) (ho : o ≤ t.length) :
    1 ≤ (getLineAndColumn t o).1 ∧ 1 ≤ (getLineAndColumn t o).2 ∧
    (getLineAndColumn t o).1 = (t.take o).count '\n' + 1 ∧
    (∀ i, lastNlIdx (t.take o) = some i → (getLineAndColumn t o).2 = o - i) ∧
    (lastNlIdx (t.take o) = none → (getLineAndColumn t o).2 = o + 1) := by
  have hlen : (t.take o).length = o := by
    rw [List.length_take]
    omega
  refine ⟨?_, ?_, ?_, ?_, ?_⟩
  · show 1 ≤ (splitOnNl (t.take o)).length
    rw [splitOnNl_length]
    omega
  · show 1 ≤ ((splitOnNl (t.take o)).getLastD []).length + 1
    omega
  · show (splitOnNl (t.take o)).length = (t.take o).count '\n' + 1
    exact splitOnNl_length _
  · intro i hi
    have hlt := lastNlIdx_lt _ _ hi
    rw [hlen] at hlt
    show ((splitOnNl (t.take o)).getLastD []).length + 1 = o - i
    rw [splitOnNl_getLastD_some _ _ hi, hlen]
    omega
  · intro hn
    show ((splitOnNl (t.take o)).getLastD []).length + 1 = o + 1
    rw [splitOnNl_getLastD_none _ hn, hlen]

/-- Claim C2, witness: the resolver on text `ab\ncd` at offset 4 — line 2,
column 2, with the last newline before offset 4 at index 2. -/
theorem c2_witness :
    4 ≤ ("ab\ncd".toList).length ∧
    (1 ≤ (getLineAndColumn ("ab\ncd".toList) 4).1 ∧
     1 ≤ (getLineAndColumn ("ab\ncd".toList) 4).2 ∧
     (getLineAndColumn ("ab\ncd".toList) 4).1 =
       (("ab\ncd".toList).take 4).count '\n' + 1 ∧
     (∀ i, lastNlIdx (("ab\ncd".toList).take 4) = some i →
       (getLineAndColumn ("ab\ncd".toList) 4).2 = 4 - i) ∧
     (lastNlIdx (("ab\ncd".toList).take 4) = none →
       (getLineAndColumn ("ab\ncd".toList) 4).2 = 4 + 1)) :=
  ⟨by decide, c2_position_resolver ("ab\ncd".toList) 4 (by decide)⟩

lemma calculateConfidence_bounds (matchText lineContent : List Char) (lineNumber : Nat) :
    0 ≤ calculateConfidence matchText lineContent lineNumber ∧
      calculateConfidence matchText lineContent lineNumber ≤ 1 := by
  unfold calculateConfidence
  exact ⟨le_max_left 0 _, max_le (by norm_num) (min_le_left 1 _)⟩

/-- `calculateConfidence` written as the one-shot sum the specification
describes, with the suppression predicate factored out. -/
lemma calculateConfidence_eq (matchText lineContent : List Char) (lineNumber : Nat) :
    calculateConfidence matchText lineContent lineNumber =
      max 0 (min 1 ((1/2 : ℚ)
        + (if 20 < matchText.length then 2/10 else 0)
        - (if lineSuppressed lineContent then 3/10 else 0)
        + (if containsSub matchText ("setInterval".toList) ||
              containsSub matchText ("addEventListener".toList) then 1/10 else 0))) := by
  unfold calculateConfidence lineSuppressed
  rw [Bool.or_comm (containsSub lineContent eslintMarker)
    (containsSub lineContent outriderMarker)]
  split_ifs <;> norm_num

lemma findPatternMatches_confidence {pattern : Rx} {content : List Char}
    {lines : List (List Char)} {m : RawMatch}
    (h : m ∈ findPatternMatches pattern content lines) :
    m.confidence = calculateConfidence m.matchText (lines.getD (m.line - 1) []) m.line := by
  unfold findPatternMatches at h
  obtain ⟨ie, -, rfl⟩ := List.mem_map.1 h
  rfl

lemma mem_mlAnalyze {cfg : MLConfig} {content : List Char} {filePath : String}
    {f : Finding} (h : f ∈ mlAnalyze cfg content filePath) :
    ∃ cat det m, cat ∈ getHeuristicPatterns ∧ det ∈ cat.2.patterns ∧
      m ∈ findPatternMatches det.pattern content (splitOnNl content) ∧
      cfg.confidenceThreshold ≤ m.confidence ∧
      f = mkMlFinding cat.1 cat.2 det filePath m := by
  unfold mlAnalyze at h
  split at h
  · cases h
  · have h' := List.mem_of_mem_take h
    unfold analyzeWithHeuristics analyzeWithHeuristicsT at h'
    obtain ⟨cat, hcat, h'⟩ := List.mem_flatMap.1 h'
    obtain ⟨det, hdet, h'⟩ := List.mem_flatMap.1 h'
    obtain ⟨m, hm, rfl⟩ := List.mem_map.1 h'
    obtain ⟨hmem, hth⟩ := List.mem_filter.1 hm
    exact ⟨cat, det, m, hcat, hdet, hmem, by exact_mod_cast of_decide_eq_true hth, rfl⟩

/-- Claim C3: `MLAnalyzer.calculateConfidence` is the fixed-base formula —
base 0.5, +0.2 for a match longer than 20 characters, −0.3 when the line
carries `// outrider-disable` or `// eslint-disable`, +0.1 when the match
contains `setInterval` or `addEventListener`, clamped to [0, 1]. -/
theorem c3_confidence_formula (matchText lineContent : List Char) (lineNumber : Nat) :
    calculateConfidence matchText lineContent lineNumber =
      max 0 (min 1 ((1/2 : ℚ)
        + (if 20 < matchText.length then 2/10 else 0)
        - (if containsSub lineContent outriderMarker ||
              containsSub lineContent eslintMarker then 3/10 else 0)
        + (if containsSub matchText ("setInterval".toList) ||
              containsSub matchText ("addEventListener".toList) then 1/10 else 0))) ∧
    0 ≤ calculateConfidence matchText lineContent lineNumber ∧
    calculateConfidence matchText lineContent lineNumber ≤ 1 := by
  refine ⟨?_, calculateConfidence_bounds matchText lineContent lineNumber⟩
  unfold calculateConfidence
  split_ifs <;> norm_num

/-- Claim C5: every finding `MLAnalyzer.analyze` emits carries a confidence
in [0, 1] that is at least the configured threshold — sub-threshold matches
are never emitted — and any threshold above 1 makes the output empty for
every input text. -/
theorem c5_threshold_filter (cfg : MLConfig) (content : List Char) (filePath : String) :
    (∀ f ∈ mlAnalyze cfg content filePath,
      ∃ c : ℚ, f.confidence = some c ∧ 0 ≤ c ∧ c ≤ 1 ∧ cfg.confidenceThreshold ≤ c) ∧
    (1 < cfg.confidenceThreshold → mlAnalyze cfg content filePath = []) := by
  have hmain : ∀ f ∈ mlAnalyze cfg content filePath,
      ∃ c : ℚ, f.confidence = some c ∧ 0 ≤ c ∧ c ≤ 1 ∧ cfg.confidenceThreshold ≤ c := by
    intro f hf
    obtain ⟨cat, det, m, -, -, hmem, hth, rfl⟩ := mem_mlAnalyze hf
    refine ⟨m.confidence, rfl, ?_, ?_, hth⟩
    · rw [findPatternMatches_confidence hmem]
      exact (calculateConfidence_bounds _ _ _).1
    · rw [findPatternMatches_confidence hmem]
      exact (calculateConfidence_bounds _ _ _).2
  refine ⟨hmain, fun h1 => ?_⟩
  rw [List.eq_nil_iff_forall_not_mem]
  intro f hf
  obtain ⟨c, -, -, hc1, hth⟩ := hmain f hf
  exact absurd (hth.trans hc1) (not_le.2 h1)

/-- Claim C5, witness: with the threshold raised to 2, the analyzer emits
nothing on a text that does have a raw heuristic match. -/
theorem c5_witness :
    (1 : ℚ) < 2 ∧ mlAnalyze ⟨true, 2, 5⟩ ("a.b.c".toList) "f" = [] :=
  ⟨by norm_num, (c5_threshold_filter ⟨true, 2, 5⟩ ("a.b.c".toList) "f").2 (by norm_num)⟩

/-- Claim C6, counterexample: on the text `a.b.c` with the default
configuration (threshold 0.7, cap 10) there is exactly one raw heuristic
match, but `analyze` returns the empty list because the match's confidence
0.5 falls below the threshold — so the output length is 0, not
`min(maxWarningsPerFile, totalRawMatches) = 1`. -/
theorem c6_counterexample :
    totalRawMatches ("a.b.c".toList) = 1 ∧
    mlAnalyze defaultMLConfig ("a.b.c".toList) "f" = [] ∧
    ¬((mlAnalyze defaultMLConfig ("a.b.c".toList) "f").length =
        min defaultMLConfig.maxWarningsPerFile (totalRawMatches ("a.b.c".toList))) := by
  refine ⟨by decide, by decide, by decide⟩

/-- Claim C6, amended: when the analyzer is enabled, its output is exactly
the head-truncation, to `maxWarningsPerFile`, of the findings produced in
category-then-detector-then-occurrence scan order after the confidence
threshold is applied; in particular its length is
`min(maxWarningsPerFile, number of threshold-passing findings)` — not the
number of raw matches, and with no priority selection by severity or
confidence. -/
theorem c6_head_truncation (cfg : MLConfig) (content : List Char) (filePath : String)
    (henabled : cfg.enabled = true) :
    mlAnalyze cfg content filePath =
      (analyzeWithHeuristics cfg content filePath).take cfg.maxWarningsPerFile ∧
    (mlAnalyze cfg content filePath).length =
      min cfg.maxWarningsPerFile (analyzeWithHeuristics cfg content filePath).length := by
  unfold mlAnalyze
  rw [henabled]
  exact ⟨rfl, List.length_take _ _⟩

/-- Claim C6, witness: the amended theorem at the default configuration on
the text `a.b.c`. -/
theorem c6_witness :
    defaultMLConfig.enabled = true ∧
    (mlAnalyze defaultMLConfig ("a.b.c".toList) "f" =
      (analyzeWithHeuristics defaultMLConfig ("a.b.c".toList) "f").take
        defaultMLConfig.maxWarningsPerFile ∧
    (mlAnalyze defaultMLConfig ("a.b.c".toList) "f").length =
      min defaultMLConfig.maxWarningsPerFile
        (analyzeWithHeuristics defaultMLConfig ("a.b.c".toList) "f").length) :=
  ⟨rfl, c6_head_truncation defaultMLConfig ("a.b.c".toList) "f" rfl⟩

/-- Claim C4, counterexample: on the text `a.b.c` (threshold lowered to 0.5
so the finding is emitted) the `null-access` category declares base
confidence 0.85, yet the emitted finding's confidence is 0.5 — which no
combination of the per-match adjustments (+0.2, −0.3, +0.1, clamped) applied
to the declared base 0.85 can produce.  The category's `confidence`
attribute is not the base of the computation; `calculateConfidence` starts
from the fixed value 0.5. -/
theorem c4_counterexample :
    mlAnalyze ⟨true, 1/2, 10⟩ ("a.b.c".toList) "f" = [exampleMlFinding] ∧
    (getHeuristicPatterns.find? (fun p => p.1 = "null-access")).map
      (fun p => p.2.confidence) = some (85/100) ∧
    exampleMlFinding.confidence = some (1/2) ∧
    (∀ b1 b2 b3 : Bool,
      ¬(max 0 (min 1 ((85/100 : ℚ) + (if b1 then 2/10 else 0) -
          (if b2 then 3/10 else 0) + (if b3 then 1/10 else 0))) = 1/2)) := by
  refine ⟨by decide, by decide, rfl, by decide⟩

/-- Claim C4, amended: an emitted heuristic finding borrows the owning
category's severity (and a detector carries no severity or confidence of its
own), but not the category's base-confidence attribute: the output is
invariant under arbitrary changes to every category's `confidence` field,
and every emitted confidence is a value of `calculateConfidence`, which
starts from the fixed base 0.5 and adjusts per match. -/
theorem c4_severity_from_category :
    (∀ (cfg : MLConfig) (content : List Char) (filePath : String) (f : Finding),
      f ∈ mlAnalyze cfg content filePath →
      ∃ cat, cat ∈ getHeuristicPatterns ∧ f.category = some cat.1 ∧
        f.severity = cat.2.severity) ∧
    (∀ (table : List (String × HeuristicCategory)) (g : String → HeuristicCategory → ℚ)
        (cfg : MLConfig) (content : List Char) (filePath : String),
      analyzeWithHeuristicsT
          (table.map (fun p => (p.1, { p.2 with confidence := g p.1 p.2 })))
          cfg content filePath =
        analyzeWithHeuristicsT table cfg content filePath) ∧
    (∀ (cfg : MLConfig) (content : List Char) (filePath : String) (f : Finding),
      f ∈ mlAnalyze cfg content filePath →
      ∃ mt lc n, f.confidence = some (calculateConfidence mt lc n)) := by
  refine ⟨?_, ?_, ?_⟩
  · intro cfg content filePath f hf
    obtain ⟨cat, det, m, hcat, -, -, -, rfl⟩ := mem_mlAnalyze hf
    exact ⟨cat, hcat, rfl, rfl⟩
  · intro table g cfg content filePath
    unfold analyzeWithHeuristicsT
    rw [List.flatMap_map]
    rfl
  · intro cfg content filePath f hf
    obtain ⟨cat, det, m, -, -, hmem, -, rfl⟩ := mem_mlAnalyze hf
    exact ⟨m.matchText, (splitOnNl content).getD (m.line - 1) [], m.line,
      congrArg some (findPatternMatches_confidence hmem)⟩

/-- Claim C4, witness: the amended theorem applied to the concrete finding
the analyzer emits on `a.b.c`: its severity is the `null-access` category's
severity. -/
theorem c4_witness :
    ∃ cat, cat ∈ getHeuristicPatterns ∧ exampleMlFinding.category = some cat.1 ∧
      exampleMlFinding.severity = cat.2.severity :=
  c4_severity_from_category.1 ⟨true, 1/2, 10⟩ ("a.b.c".toList) "f" exampleMlFinding
    (by decide)

lemma mem_ruleAnalyze {rules : List (String × Rule)} {content : List Char}
    {filePath : String} {f : Finding} (h : f ∈ ruleAnalyze rules content filePath) :
    ∃ ruleName rule, ruleName ∈ getEnabledRules rules ∧
      lookupRule rules ruleName = some rule ∧ f ∈ applyRule rule ruleName content filePath := by
  unfold ruleAnalyze at h
  obtain ⟨ruleName, hname, hf⟩ := List.mem_flatMap.1 h
  cases hl : lookupRule rules ruleName with
  | none => rw [hl] at hf; cases hf
  | some rule =>
    rw [hl] at hf
    exact ⟨ruleName, rule, hname, hl, hf⟩

lemma mem_applyRule {rule : Rule} {ruleName : String} {content : List Char}
    {filePath : String} {f : Finding} (h : f ∈ applyRule rule ruleName content filePath) :
    ∃ pat ie, rule.pattern = some pat ∧ ie ∈ findAll pat content ∧
      shouldSkipRule rule (lineAt content (getLineAndColumn content ie.1).1)
        (getLineAndColumn content ie.1).1 = false ∧
      f = mkRuleFinding rule ruleName filePath content ie := by
  unfold applyRule at h
  cases hp : rule.pattern with
  | none => rw [hp] at h; cases h
  | some pat =>
    rw [hp] at h
    obtain ⟨ie, hie, hf⟩ := List.mem_filterMap.1 h
    simp only [] at hf
    split at hf
    · cases hf
    · rename_i hskip
      injection hf with hf
      exact ⟨pat, ie, rfl, hie, Bool.eq_false_iff.2 hskip, hf.symm⟩

lemma shouldSkipRule_of_suppressed {lineContent : List Char}
    (h : lineSuppressed lineContent = true) (rule : Rule) (lineNumber : Nat) :
    shouldSkipRule rule lineContent lineNumber = true := by
  unfold lineSuppressed at h
  unfold shouldSkipRule
  simp [h]

/-- Claim C7: a line with a recognized disable marker yields zero rule
findings starting on it (binary skip), while the heuristic analyzer merely
lowers such a match's confidence by exactly 0.3 (clamped at 0) — so a
marked-line match can still be emitted when other boosts keep it at or above
the threshold, as the concrete `setInterval` example shows. -/
theorem c7_suppression :
    (∀ (rules : List (String × Rule)) (content : List Char) (filePath : String) (ln : Nat),
      lineSuppressed (lineAt content ln) = true →
      ∀ f ∈ ruleAnalyze rules content filePath, f.line ≠ ln) ∧
    (∀ (matchText lc lc' : List Char) (n n' : Nat),
      lineSuppressed lc = true → lineSuppressed lc' = false →
      calculateConfidence matchText lc n =
        max 0 (calculateConfidence matchText lc' n' - 3/10)) ∧
    ((mlAnalyze ⟨true, 3/10, 10⟩ ("setInterval(x) // eslint-disable".toList) "f").map
        (fun f => (f.line, f.confidence)) = [(1, some (3/10))] ∧
      lineSuppressed (lineAt ("setInterval(x) // eslint-disable".toList) 1) = true) := by
  refine ⟨?_, ?_, by decide, by decide⟩
  · intro rules content filePath ln hmark f hf hline
    obtain ⟨ruleName, rule, -, -, happ⟩ := mem_ruleAnalyze hf
    obtain ⟨pat, ie, -, -, hskip, rfl⟩ := mem_applyRule happ
    have : (mkRuleFinding rule ruleName filePath content ie).line =
        (getLineAndColumn content ie.1).1 := rfl
    rw [this] at hline
    rw [hline] at hskip
    rw [shouldSkipRule_of_suppressed hmark rule _] at hskip
    cases hskip
  · intro matchText lc lc' n n' h h'
    rw [calculateConfidence_eq, calculateConfidence_eq, if_pos h,
      if_neg (show ¬(lineSuppressed lc' = true) from fun hx => by rw [h'] at hx; cases hx)]
    split_ifs <;> norm_num

/-- Claim C7, witness: the binary-skip half on a concrete text — the line
`debugger // eslint-disable` is marked, and the rule engine emits no finding
on line 1 even though the `no-debugger` pattern matches there. -/
theorem c7_witness :
    lineSuppressed (lineAt ("debugger // eslint-disable".toList) 1) = true ∧
    (∀ f ∈ ruleAnalyze defaultRules ("debugger // eslint-disable".toList) "f",
      f.line ≠ 1) :=
  ⟨by decide, c7_suppression.1 defaultRules ("debugger // eslint-disable".toList) "f" 1
    (by decide)⟩

lemma mkRuleFinding_rule (rule : Rule) (ruleName filePath : String)
    (content : List Char) (ie : Nat × Nat) :
    (mkRuleFinding rule ruleName filePath content ie).rule = ruleName := rfl

/-- Claim C8: a disabled rule never contributes findings — for any rule set,
a rule whose `enabled` flag is literally `false` produces no finding bearing
its name, whatever the text; and with the heuristic engine's `enabled` flag
false, `MLAnalyzer.analyze` returns the empty list on every input. -/
theorem c8_disabled_no_findings :
    (∀ (rules : List (String × Rule)) (content : List Char) (filePath ruleName : String),
      (lookupRule rules ruleName).map Rule.enabled = some (some false) →
      ∀ f ∈ ruleAnalyze rules content filePath, f.rule ≠ ruleName) ∧
    (∀ (th : ℚ) (k : Nat) (content : List Char) (filePath : String),
      mlAnalyze ⟨false, th, k⟩ content filePath = []) := by
  constructor
  · intro rules content filePath ruleName hdis f hf hname
    obtain ⟨ruleName', rule', hmem, hl', happ⟩ := mem_ruleAnalyze hf
    obtain ⟨pat, ie, -, -, -, hfeq⟩ := mem_applyRule happ
    rw [hfeq, mkRuleFinding_rule] at hname
    subst hname
    unfold getEnabledRules at hmem
    obtain ⟨-, hpred⟩ := List.mem_filter.1 hmem
    rw [hl'] at hpred
    obtain ⟨rule'', hl'', he''⟩ := Option.map_eq_some'.1 hdis
    rw [hl''] at hl'
    injection hl' with hl'
    subst hl'
    simp [he''] at hpred
  · intro th k content filePath
    rfl

/-- Claim C8, witness: `no-unused-variables` is disabled by default and its
pattern matches `const x = 1;`, yet the engine emits no finding for it; and
the disabled heuristic engine emits nothing. -/
theorem c8_witness :
    (lookupRule defaultRules "no-unused-variables").map Rule.enabled =
      some (some false) ∧
    ((lookupRule defaultRules "no-unused-variables").bind Rule.pattern).map
      (fun pat => (findAll pat ("const x = 1;".toList)).length) = some 1 ∧
    (∀ f ∈ ruleAnalyze defaultRules ("const x = 1;".toList) "f",
      f.rule ≠ "no-unused-variables") ∧
    mlAnalyze ⟨false, 7/10, 10⟩ ("const x = 1;".toList) "f" = [] :=
  ⟨by decide, by decide,
    c8_disabled_no_findings.1 defaultRules ("const x = 1;".toList) "f"
      "no-unused-variables" (by decide),
    c8_disabled_no_findings.2 (7/10) 10 ("const x = 1;".toList) "f"⟩


lemma lookupRule_enableAll (rules : List (String × Rule)) (ruleName : String) :
    lookupRule (enableAll rules) ruleName =
      (lookupRule rules ruleName).map forceEnabled := by
  unfold lookupRule enableAll
  rw [List.find?_map]
  rw [show ((fun p : String × Rule => decide (p.1 = ruleName)) ∘
      (fun p : String × Rule => (p.1, forceEnabled p.2))) =
    (fun p : String × Rule => decide (p.1 = ruleName)) from rfl]
  cases rules.find? (fun p : String × Rule => decide (p.1 = ruleName)) <;> rfl

lemma forceEnabled_beq (r : Rule) :
    ((forceEnabled r).enabled == some false) = (r.enabled == some false) := by
  unfold forceEnabled
  by_cases h : r.enabled = some false <;> simp [h]

lemma getEnabledRules_enableAll (rules : List (String × Rule)) :
    getEnabledRules (enableAll rules) = getEnabledRules rules := by
  unfold getEnabledRules
  have hfst : (enableAll rules).map (fun p => p.1) = rules.map (fun p => p.1) := by
    unfold enableAll
    rw [List.map_map]
    rfl
  rw [hfst]
  apply List.filter_congr
  intro ruleName _
  rw [lookupRule_enableAll]
  cases lookupRule rules ruleName with
  | none => rfl
  | some r =>
    simp only [Option.map_some']
    rw [forceEnabled_beq]

lemma applyRule_forceEnabled (r : Rule) (ruleName : String) (content : List Char)
    (filePath : String) :
    applyRule (forceEnabled r) ruleName content filePath =
      applyRule r ruleName content filePath := by
  unfold forceEnabled
  by_cases h : r.enabled = some false
  · rw [if_pos h]
  · rw [if_neg h]
    rfl

/-- Claim C10: only the literal value `false` of a rule's `enabled`
attribute excludes it — a rule name present in the set is in the active
set exactly when its `enabled` is not literally `false`; replacing every
non-`false` `enabled` attribute (absent included) by an explicit `true`
leaves `analyze`'s output unchanged; and a rule added via `addRule` without
an `enabled` key gets an explicit `enabled: true`. -/
theorem c10_enabled_filter :
    (∀ (rules : List (String × Rule)) (ruleName : String),
      (lookupRule rules ruleName).isSome = true →
      (ruleName ∈ getEnabledRules rules ↔
        (lookupRule rules ruleName).map Rule.enabled ≠ some (some false))) ∧
    (∀ (rules : List (String × Rule)) (content : List Char) (filePath : String),
      ruleAnalyze (enableAll rules) content filePath =
        ruleAnalyze rules content filePath) ∧
    (∀ (rules : List (String × Rule)) (ruleName : String) (cfg : RuleSpec),
      cfg.enabled = none →
      (lookupRule (addRule rules ruleName cfg) ruleName).map Rule.enabled =
        some (some true)) := by
  refine ⟨?_, ?_, ?_⟩
  · intro rules ruleName hsome
    obtain ⟨rule, hrule⟩ := Option.isSome_iff_exists.1 hsome
    have hfst : ruleName ∈ rules.map (fun p => p.1) := by
      unfold lookupRule at hrule
      obtain ⟨p, hp, -⟩ := Option.map_eq_some'.1 hrule
      have hpn : p.1 = ruleName := by simpa using List.find?_some hp
      exact hpn ▸ List.mem_map_of_mem _ (List.mem_of_find?_eq_some hp)
    unfold getEnabledRules
    rw [List.mem_filter, hrule]
    constructor
    · rintro ⟨-, hpred⟩
      intro hc
      have hc' : rule.enabled = some false := by simpa using hc
      simp [hc'] at hpred
    · intro hne
      refine ⟨hfst, ?_⟩
      have hne' : ¬(rule.enabled = some false) := by
        intro hh
        exact hne (by simp [hh])
      have hgoal : (!(rule.enabled == some false)) = true := by simp [hne']
      exact hgoal
  · intro rules content filePath
    unfold ruleAnalyze
    rw [getEnabledRules_enableAll]
    apply congrArg
    funext ruleName
    rw [lookupRule_enableAll]
    cases lookupRule rules ruleName with
    | none => rfl
    | some r =>
      simp only [Option.map_some']
      exact applyRule_forceEnabled r ruleName content filePath
  · intro rules ruleName cfg hen
    unfold addRule
    by_cases hmem : (lookupRule rules ruleName).isSome
    · rw [if_pos hmem]
      have hrep : ∀ (rs : List (String × Rule)),
          (lookupRule rs ruleName).isSome = true →
          lookupRule (rs.map (fun p => if p.1 = ruleName then
            (p.1, { name := cfg.name.getD ruleName,
                    enabled := some (cfg.enabled.getD true),
                    severity := cfg.severity.getD "warning",
                    description := cfg.description.getD "",
                    pattern := cfg.pattern, exclude := cfg.exclude }) else p)) ruleName =
            some { name := cfg.name.getD ruleName,
                   enabled := some (cfg.enabled.getD true),
                   severity := cfg.severity.getD "warning",
                   description := cfg.description.getD "",
                   pattern := cfg.pattern, exclude := cfg.exclude } := by
        intro rs
        induction rs with
        | nil => intro h; cases h
        | cons p ps ih =>
          intro h
          by_cases hp : p.1 = ruleName
          · unfold lookupRule
            rw [List.map_cons, if_pos hp, List.find?_cons_of_pos _ (by simpa using hp)]
            rfl
          · unfold lookupRule at h ⊢
            rw [List.find?_cons_of_neg _ (by simpa using hp)] at h
            rw [List.map_cons, if_neg hp, List.find?_cons_of_neg _ (by simpa using hp)]
            exact ih h
      rw [hrep rules hmem, hen]
      rfl
    · rw [if_neg hmem]
      have hnone : rules.find? (fun p => decide (p.1 = ruleName)) = none := by
        cases h : rules.find? (fun p => decide (p.1 = ruleName)) with
        | none => rfl
        | some p =>
          exfalso
          apply hmem
          unfold lookupRule
          rw [h]
          rfl
      unfold lookupRule
      rw [List.find?_append, hnone]
      simp only [Option.none_or]
      rw [List.find?_cons_of_pos _ (by simp)]
      rw [hen]
      rfl

/-- Claim C10, witness: the characterization applied to `no-console-log`
(present, enabled not `false`), the enable-normalization on a concrete text,
and `addRule` with a config that has no `enabled` key. -/
theorem c10_witness :
    (lookupRule defaultRules "no-console-log").isSome = true ∧
    ("no-console-log" ∈ getEnabledRules defaultRules ↔
      (lookupRule defaultRules "no-console-log").map Rule.enabled ≠ some (some false)) ∧
    ruleAnalyze (enableAll defaultRules) ("console.log('x');\n".toList) "f" =
      ruleAnalyze defaultRules ("console.log('x');\n".toList) "f" ∧
    ({} : RuleSpec).enabled = none ∧
    (lookupRule (addRule defaultRules "my-rule" {}) "my-rule").map Rule.enabled =
      some (some true) :=
  ⟨by decide, c10_enabled_filter.1 defaultRules "no-console-log" (by decide),
   c10_enabled_filter.2.1 defaultRules ("console.log('x');\n".toList) "f",
   rfl,
   c10_enabled_filter.2.2 defaultRules "my-rule" {} rfl⟩

/-- Claim C9: when any fallible step of a file's pipeline (read, parse, or
the rule engine — `MLAnalyzer.analyze` catches internally and cannot throw)
raises, `analyzeFile` yields exactly one synthetic finding with severity
`error` and the reserved rule `file-parsing-error`, and the batch result for
the other files is exactly what they produce on their own. -/
theorem c9_error_isolation {α : Type} (fs₁ fs₂ : List String) (filePath : String)
    (readFs : String → Except String (List Char))
    (parseF : List Char → Except String α)
    (ruleF : α → List Char → String → Except String (List Finding))
    (mlF : α → List Char → String → List Finding)
    (e : String)
    (herr : pipelineError filePath (readFs filePath) parseF ruleF = some e) :
    analyzeFile filePath (readFs filePath) parseF ruleF mlF =
      [parseErrorFinding filePath e] ∧
    (parseErrorFinding filePath e).severity = "error" ∧
    (parseErrorFinding filePath e).rule = "file-parsing-error" ∧
    scanBatch (fs₁ ++ filePath :: fs₂) readFs parseF ruleF mlF =
      scanBatch fs₁ readFs parseF ruleF mlF ++
        [parseErrorFinding filePath e] ++ scanBatch fs₂ readFs parseF ruleF mlF := by
  have hone : analyzeFile filePath (readFs filePath) parseF ruleF mlF =
      [parseErrorFinding filePath e] := by
    unfold pipelineError at herr
    unfold analyzeFile
    cases hr : readFs filePath with
    | error e' =>
      rw [hr] at herr
      have herr2 : some e' = some e := herr
      injection herr2 with herr2
      show [parseErrorFinding filePath e'] = [parseErrorFinding filePath e]
      rw [herr2]
    | ok content =>
      rw [hr] at herr
      have herr2 : (match parseF content with
          | Except.error e => some e
          | Except.ok ast =>
            match ruleF ast content filePath with
            | Except.error e => some e
            | Except.ok _ => none) = some e := herr
      show (match parseF content with
          | Except.error e => [parseErrorFinding filePath e]
          | Except.ok ast =>
            match ruleF ast content filePath with
            | Except.error e => [parseErrorFinding filePath e]
            | Except.ok ruleResults => ruleResults ++ mlF ast content filePath) =
        [parseErrorFinding filePath e]
      cases hp : parseF content with
      | error e' =>
        rw [hp] at herr2
        have herr3 : some e' = some e := herr2
        injection herr3 with herr3
        show [parseErrorFinding filePath e'] = [parseErrorFinding filePath e]
        rw [herr3]
      | ok ast =>
        rw [hp] at herr2
        have herr3 : (match ruleF ast content filePath with
            | Except.error e => some e
            | Except.ok _ => none) = some e := herr2
        show (match ruleF ast content filePath with
            | Except.error e => [parseErrorFinding filePath e]
            | Except.ok ruleResults => ruleResults ++ mlF ast content filePath) =
          [parseErrorFinding filePath e]
        cases hru : ruleF ast content filePath with
        | error e' =>
          rw [hru] at herr3
          have herr4 : some e' = some e := herr3
          injection herr4 with herr4
          show [parseErrorFinding filePath e'] = [parseErrorFinding filePath e]
          rw [herr4]
        | ok rs =>
          rw [hru] at herr3
          have herr4 : (none : Option String) = some e := herr3
          cases herr4
  refine ⟨hone, rfl, rfl, ?_⟩
  unfold scanBatch
  rw [List.flatMap_append, List.flatMap_cons, hone]
  exact (List.append_assoc _ _ _).symm

/-- Claim C9, witness: a batch of three files in which the middle file's
read fails — it contributes exactly the synthetic `file-parsing-error`
finding. -/
theorem c9_witness :
    pipelineError "bad.js" (Except.error "ENOENT")
      (fun _ => Except.ok ()) (fun _ _ _ => Except.ok []) = some "ENOENT" ∧
    analyzeFile "bad.js" (Except.error "ENOENT")
      (fun _ => Except.ok ()) (fun _ _ _ => Except.ok [])
      (fun _ _ _ => ([] : List Finding)) = [parseErrorFinding "bad.js" "ENOENT"] :=
  ⟨rfl,
   (c9_error_isolation ["a.js"] ["b.js"] "bad.js" (fun _ => Except.error "ENOENT")
     (fun _ => Except.ok ()) (fun _ _ _ => Except.ok [])
     (fun _ _ _ => ([] : List Finding)) "ENOENT" rfl).1⟩

end
